import Mathlib

/-!
# Gophermart core: accrual reconciliation

A shallow embedding of `internal/core/gophermart/gophermart.go`:

* `Atoi`: the Go standard library's `strconv.Atoi`, used by `checkLuhn` and
  by `requestToAccrual`;
* `requestToAccrual`: the accrual protocol adapter;
* `checkLuhn`, `UploadOrder`, `WithdrawFromBalanceUser`: order number validation;
* `step`: an interleaving semantics of the two goroutines
  `generatorUpdAccrual` and `workerUpdOrders` joined by an unbuffered channel.

Go strings are byte sequences. They are represented by Lean strings; wherever the
source indexes bytes (`checkLuhn`) the embedding goes through the UTF-8 bytes.
-/

namespace Gophermart

/-- A Go `error` value produced by the environment (HTTP stack, JSON decoder, store). -/
abbrev GoError := String

/-! ## strconv.Atoi -/

/-- The two `strconv.NumError` causes. -/
inductive NumError where
  | ErrSyntax
  | ErrRange
deriving DecidableEq, Repr

/-- Largest `uint64`, `maxVal` in `strconv.ParseUint` for bit size 64. -/
def maxUint64 : Nat := 18446744073709551615

/-- Constant `cutoff` of `strconv.ParseUint` for base 10: `maxUint64/10 + 1`. -/
def cutoffUint : Nat := maxUint64 / 10 + 1

/-- Digit loop of `strconv.ParseUint(s, 10, 64)`: left to right over the bytes, a byte that is
not a decimal digit is a syntax error, an accumulator that leaves `uint64` is a range error
(reported with the value `maxUint64`). Bytes of a character outside ASCII are all at least
`0x80`, so they fail exactly where the character does. -/
def parseUintLoop : List Char → Nat → Nat × Option NumError
  | [], n => (n, none)
  | c :: cs, n =>
    if '0' ≤ c ∧ c ≤ '9' then
      let d := c.toNat - '0'.toNat
      if n ≥ cutoffUint then (maxUint64, some .ErrRange)
      else
        let n10 := (n * 10) % 18446744073709551616
        let n1 := (n10 + d) % 18446744073709551616
        if n1 < n10 ∨ n1 > maxUint64 then (maxUint64, some .ErrRange)
        else parseUintLoop cs n1
    else (0, some .ErrSyntax)

/-- Function `strconv.ParseUint(s, 10, 64)`: the empty string is a syntax error. -/
def ParseUint (s : List Char) : Nat × Option NumError :=
  match s with
  | [] => (0, some .ErrSyntax)
  | _ => parseUintLoop s 0

/-- Function `strconv.ParseInt(s, 10, 0)` on a 64-bit platform: optional sign, then `ParseUint`;
magnitudes outside `int64` are range errors reported with the nearest bound. -/
def ParseInt (s : List Char) : Int × Option NumError :=
  match s with
  | [] => (0, some .ErrSyntax)
  | c :: cs =>
    let neg := c == '-'
    let rest := if c == '+' ∨ c == '-' then cs else c :: cs
    match ParseUint rest with
    | (_, some .ErrSyntax) => (0, some .ErrSyntax)
    | (un, _) =>
      let cutoff : Nat := 9223372036854775808
      if !neg ∧ un ≥ cutoff then ((cutoff : Int) - 1, some .ErrRange)
      else if neg ∧ un > cutoff then (-(cutoff : Int), some .ErrRange)
      else (if neg then -(un : Int) else (un : Int), none)

/-- Function `strconv.Atoi`. Its fast path for short inputs returns what `ParseInt(s, 10, 0)`
returns on them (fewer than 19 bytes cannot overflow), so the value and the error are those of
`ParseInt`. -/
def Atoi (s : String) : Int × Option NumError := ParseInt s.toList

/-! ## Data model -/

/-- Type `model.Order`, restricted to the fields this package reads or writes. `Status` is
`model.OrderStatus`, a string type; the accrual amount type `A` is only ever copied. -/
structure Order (A : Type) where
  Number : String
  Status : String
  Accrual : A
deriving DecidableEq, Repr

/-- Type `tOrderAccrualBody`: the decoded body of the accrual service's answer. -/
structure tOrderAccrualBody (A : Type) where
  Order : String
  Status : String
  Accrual : A
deriving DecidableEq, Repr

/-- What `requestToAccrual` reads of an `*http.Response`: the status code, `Header.Get`, and the
result of `io.ReadAll(resp.Body)`. -/
structure Response where
  StatusCode : Int
  HeaderGet : String → String
  Body : Except GoError String

/-- The collaborators of `Gophermart` that `requestToAccrual` reaches: `cfg.AccrualAddress`,
`http.Get`, `json.Unmarshal` into a `tOrderAccrualBody`, and `store.AddAccrual`. -/
structure Env (A : Type) where
  AccrualAddress : String
  httpGet : String → Except GoError Response
  unmarshal : String → Except GoError (tOrderAccrualBody A)
  AddAccrual : Order A → Option GoError

/-- Package variable `delayErrorRequest`. -/
def delayErrorRequest : Int := 2

def StatusOK : Int := 200
def StatusNoContent : Int := 204
def StatusTooManyRequests : Int := 429

/-- The errors built by `requestToAccrual` with `fmt.Errorf`, one constructor per message. -/
inductive OpError where
  | requestFailed (e : GoError)
  | readBody (e : GoError)
  | unmarshalBody (e : GoError)
  | addAccrual (e : GoError)
  | convertRetryAfter (e : NumError)
  | retryAfterNotValid (n : Int)
deriving DecidableEq, Repr

/-- Observable result of running the closure returned by `requestToAccrual`:
`ret` is the returned pair (`none` when the closure panics on a nil order),
`order` is the pointee of the order pointer afterwards,
`calls` lists the arguments of the `store.AddAccrual` calls made, in order. -/
structure Outcome (A : Type) where
  ret : Option (Int × Option OpError)
  order : Option (Order A)
  calls : List (Order A)

/-- The closure returned by `requestToAccrual(ctx, order)`, run once. The order pointer may be
nil (`none`); dereferencing it for the URL panics. -/
def requestToAccrual {A : Type} (g : Env A) (order : Option (Order A)) : Outcome A :=
  match order with
  | none => ⟨none, none, []⟩
  | some o =>
    match g.httpGet (g.AccrualAddress ++ "/api/orders/" ++ o.Number) with
    | .error e => ⟨some (delayErrorRequest, some (.requestFailed e)), some o, []⟩
    | .ok resp =>
      match resp.Body with
      | .error e => ⟨some (delayErrorRequest, some (.readBody e)), some o, []⟩
      | .ok bBody =>
        if resp.StatusCode = StatusOK then
          match g.unmarshal bBody with
          | .error e => ⟨some (delayErrorRequest, some (.unmarshalBody e)), some o, []⟩
          | .ok jBody =>
            let o1 : Order A := { o with Accrual := jBody.Accrual }
            let o2 : Order A := { o1 with Status := jBody.Status }
            match g.AddAccrual o2 with
            | some e => ⟨some (delayErrorRequest, some (.addAccrual e)), some o2, [o2]⟩
            | none => ⟨some (delayErrorRequest, none), some o2, [o2]⟩
        else if resp.StatusCode = StatusNoContent then
          ⟨some (0, none), some o, []⟩
        else if resp.StatusCode = StatusTooManyRequests then
          let sRetryAfter := resp.HeaderGet "Retry-After"
          match Atoi sRetryAfter with
          | (_, some e) => ⟨some (delayErrorRequest, some (.convertRetryAfter e)), some o, []⟩
          | (iRetryAfter, none) =>
            if iRetryAfter ≤ 0 then
              ⟨some (delayErrorRequest, some (.retryAfterNotValid iRetryAfter)), some o, []⟩
            else
              ⟨some (iRetryAfter, none), some o, []⟩
        else
          ⟨some (0, none), some o, []⟩


/-- Modelled from the spec: the status constants of package `model` are not in the source;
the spec names `PROCESSED` and `INVALID` as the terminal order statuses. -/
def isTerminal (status : String) : Bool := status == "PROCESSED" || status == "INVALID"

/-- An environment answering every request the same way, for concrete runs. -/
def constEnv (resp : Except GoError Response) (dec : Except GoError (tOrderAccrualBody Nat))
    (store : Option GoError) : Env Nat :=
  { AccrualAddress := "localhost:8081"
    httpGet := fun _ => resp
    unmarshal := fun _ => dec
    AddAccrual := fun _ => store }

/-- A response with the given status code, `Retry-After` value and body text. -/
def mkResponse (code : Int) (retryAfter : String) (body : Except GoError String) : Response :=
  { StatusCode := code
    HeaderGet := fun k => if k = "Retry-After" then retryAfter else ""
    Body := body }

/-! ## Order number validation -/

/-- The bytes of a Go string: `len(s)` is their number and `s[i]` the byte at `i`. -/
def bytes (s : String) : List UInt8 := s.toList.flatMap String.utf8EncodeChar

/-- Go conversion `string(b)` of a byte: the text of the code point with that value. -/
def byteToString (b : UInt8) : String := String.singleton (Char.ofNat b.toNat)

/-- Function `checkLuhn`. The sum stays below `9 * len(ccn)`, far inside `int`, so the
arithmetic is exact. The error of `strconv.Atoi` is dropped, as in the source. -/
def checkLuhn (ccn : String) : Bool :=
  let half := 2
  let maxDigit : Int := 9
  let parity := (bytes ccn).length % half
  let sum : Int := (List.range (bytes ccn).length).foldl
    (fun sum i =>
      let digit := (Atoi (byteToString ((bytes ccn).getD i 0))).1
      let digit :=
        if i % 2 = parity then
          let digit := digit * 2
          if digit > maxDigit then digit - maxDigit else digit
        else digit
      sum + digit) 0
  sum % 10 == 0

/-- The errors returned by `UploadOrder` and `WithdrawFromBalanceUser`: the sentinel
`ErrOrderNumberNotValid` and the two `fmt.Errorf` wrappers around a store error. -/
inductive CoreError where
  | ErrOrderNumberNotValid
  | failedUploadOrder (e : GoError)
  | failedWithdraw (e : GoError)
deriving DecidableEq, Repr

/-- Method `UploadOrder`, over the store method `UploadOrder`. Returns the error (`none` is nil)
and the arguments of the store calls made. -/
def UploadOrder (storeUploadOrder : Nat → String → Option GoError) (userID : Nat)
    (orderNumber : String) : Option CoreError × List (Nat × String) :=
  if !checkLuhn orderNumber then
    (some .ErrOrderNumberNotValid, [])
  else
    match storeUploadOrder userID orderNumber with
    | some err => (some (.failedUploadOrder err), [(userID, orderNumber)])
    | none => (none, [(userID, orderNumber)])

/-- Method `WithdrawFromBalanceUser`, over the store method `WithdrawFromUserBalance`; the sum,
of type `S`, is only passed on. Returns the error and the arguments of the store calls made. -/
def WithdrawFromBalanceUser {S : Type} (storeWithdraw : Nat → String → S → Option GoError)
    (userID : Nat) (order : String) (sum : S) : Option CoreError × List (Nat × String × S) :=
  if !checkLuhn order then
    (some .ErrOrderNumberNotValid, [])
  else
    match storeWithdraw userID order sum with
    | some err => (some (.failedWithdraw err), [(userID, order, sum)])
    | none => (none, [(userID, order, sum)])

/-- The contribution of one digit to the Luhn total: doubled, and reduced by 9 when above 9,
if `dbl`; unchanged otherwise. -/
def luhnWeight (dbl : Bool) (d : Nat) : Nat :=
  if dbl then (if 2 * d > 9 then 2 * d - 9 else 2 * d) else d

/-- The Luhn total of digits listed from the rightmost one; `dbl` tells whether the first
digit of the list is doubled, and every second digit after it is treated alike. -/
def luhnTotal : Bool → List Nat → Nat
  | _, [] => 0
  | dbl, d :: ds => luhnWeight dbl d + luhnTotal (!dbl) ds

/-- The standard Luhn checksum, from its description: counting from the rightmost digit, every
second digit is doubled and reduced by 9 when above 9, and the total is divisible by 10. -/
def luhnStandard (n : String) : Bool :=
  luhnTotal false ((n.toList.map (fun c => c.toNat - '0'.toNat)).reverse) % 10 == 0

/-! ## The background engine: `generatorUpdAccrual`, `workerUpdOrders`, `Wait` -/

/-- Where goroutine `generatorUpdAccrual` stands. -/
inductive GenPc (A : Type) where
  /-- At the `select` on `ctx.Done()` and `tick.C`. -/
  | select
  /-- Inside `for _, order := range orders`, at `outpuCh <- order` with `order = o`;
  `rest` are the orders still to send after it. -/
  | sending (o : Order A) (rest : List (Order A))
  /-- Returned: the deferred `close(outpuCh)` and `wg.Done()` have run. -/
  | stopped
deriving DecidableEq, Repr

/-- Where goroutine `workerUpdOrders` stands. -/
inductive WorkerPc (A : Type) where
  /-- At the `select` on `ctx.Done()` and `inputCh`. -/
  | select
  /-- Inside `cb.execute(g.requestToAccrual(ctx, o))` for the received pointer `o`
  (`none` is nil). -/
  | executing (o : Option (Order A))
  /-- Returned: the deferred `wg.Done()` has run. -/
  | stopped
deriving DecidableEq, Repr

/-- State of the engine started by `New` with `GorutineEnabled`. -/
structure Engine (A : Type) where
  /-- The channel `ctx.Done()` is closed. -/
  done : Bool
  gen : GenPc A
  worker : WorkerPc A
  /-- The channel `outpuCh` is closed. -/
  closed : Bool
  /-- Counter of the `sync.WaitGroup`; `Wait` returns when it is 0. -/
  wg : Nat
  /-- The orders passed over `outpuCh` so far. -/
  emitted : List (Order A)
  /-- The arguments of the worker's calls `g.requestToAccrual(ctx, o)` so far; `none` is a nil
  pointer. -/
  built : List (Option (Order A))
deriving DecidableEq, Repr

/-- The steps of the engine. Go picks among the ready cases of a `select` at random, so each
ready case is a step of its own. -/
inductive Event (A : Type) where
  /-- The context is cancelled. -/
  | cancel
  /-- The generator takes `<-tick.C`; `store.GetOrdersNotPrecessed` answers `res`. -/
  | tick (res : Except GoError (List (Order A)))
  /-- The generator takes `<-ctx.Done()` and returns. -/
  | genDone
  /-- The generator's `outpuCh <- order` meets the worker's `o := <-inputCh`; the worker
  builds the operation for `o` and enters `cb.execute`. -/
  | handoff
  /-- The worker's `o := <-inputCh` completes on the closed channel, with `o = nil`; the
  worker builds the operation for nil and enters `cb.execute`. -/
  | recvClosed
  /-- The worker's `cb.execute` returns, and the worker is back at its `select`. -/
  | executed
  /-- The worker takes `<-ctx.Done()` and returns. -/
  | workerDone

/-- The generator entering, or going on with, `for _, order := range orders`: at the send of
the first remaining order, or back at the `select` when none remains. -/
def nextSend {A : Type} : List (Order A) → GenPc A
  | [] => .select
  | o :: rest => .sending o rest

/-- One step of the engine; `none` when the step is not enabled in the state. The channel is
unbuffered, so a send completes only together with a receive, and the worker receives only
at its `select`. -/
def step {A : Type} (s : Engine A) : Event A → Option (Engine A)
  | .cancel => some { s with done := true }
  | .tick res =>
    match s.gen with
    | .select =>
      match res with
      | .error _ => some s
      | .ok orders => some { s with gen := nextSend orders }
    | _ => none
  | .genDone =>
    match s.gen with
    | .select => if s.done then some { s with gen := .stopped, closed := true, wg := s.wg - 1 }
      else none
    | _ => none
  | .handoff =>
    match s.gen, s.worker with
    | .sending o rest, .select =>
      some { s with gen := nextSend rest, worker := .executing (some o),
                    emitted := s.emitted ++ [o], built := s.built ++ [some o] }
    | _, _ => none
  | .recvClosed =>
    match s.worker with
    | .select =>
      if s.closed then some { s with worker := .executing none, built := s.built ++ [none] }
      else none
    | _ => none
  | .executed =>
    match s.worker with
    | .executing _ => some { s with worker := .select }
    | _ => none
  | .workerDone =>
    match s.worker with
    | .select => if s.done then some { s with worker := .stopped, wg := s.wg - 1 } else none
    | _ => none

/-- A sequence of steps, each enabled where it is taken. -/
def run {A : Type} (s : Engine A) : List (Event A) → Option (Engine A)
  | [] => some s
  | e :: es =>
    match step s e with
    | some s1 => run s1 es
    | none => none

/-- The events of `k` orders going from the generator to the worker, each one handed over and
then executed. -/
def deliver {A : Type} : Nat → List (Event A)
  | 0 => []
  | k + 1 => .handoff :: .executed :: deliver k

/-- The events that may occur while one tick is served and the context is not cancelled:
all but a cancellation and a further tick. -/
def withinTick {A : Type} : Event A → Bool
  | .cancel => false
  | .tick _ => false
  | _ => true

/-- The event that brings the worker back to its `select`: the return of the `cb.execute` call
it is in, if it is in one. -/
def resume {A : Type} : WorkerPc A → List (Event A)
  | .executing _ => [.executed]
  | _ => []

/-- The engine as `New` leaves it: both goroutines started, `wg.Add(1)` called twice. -/
def New (A : Type) : Engine A :=
  { done := false, gen := .select, worker := .select, closed := false, wg := 2,
    emitted := [], built := [] }

/-- Method `Wait` returns in this state. -/
def waitReturns {A : Type} (s : Engine A) : Bool := s.wg == 0

/-! ## Lemmas on `Atoi` -/

theorem parseUintLoop_snoc (xs : List Char) (c : Char) (a : Nat) :
    parseUintLoop (xs ++ [c]) a =
      match parseUintLoop xs a with
      | (m, none) => parseUintLoop [c] m
      | r => r := by
  induction xs generalizing a with
  | nil => rfl
  | cons x xs ih =>
    conv_lhs => rw [List.cons_append, parseUintLoop]
    conv_rhs => rw [parseUintLoop]
    dsimp only
    split_ifs <;> first | rfl | exact ih _

theorem parseUintLoop_digit (c : Char) (d m : Nat) (hc : '0' ≤ c ∧ c ≤ '9')
    (hd : c.toNat - '0'.toNat = d) (hm : m * 10 + d ≤ maxUint64) :
    parseUintLoop [c] m = (m * 10 + d, none) := by
  have hcut : ¬ m ≥ cutoffUint := by
    simp only [cutoffUint, maxUint64] at *
    omega
  have hmod : m * 10 % 18446744073709551616 = m * 10 := by
    apply Nat.mod_eq_of_lt
    simp only [maxUint64] at hm
    omega
  have hmod2 : (m * 10 + d) % 18446744073709551616 = m * 10 + d := by
    apply Nat.mod_eq_of_lt
    simp only [maxUint64] at hm
    omega
  have hfin : ¬ (m * 10 + d < m * 10 ∨ m * 10 + d > maxUint64) := by
    simp only [maxUint64] at *
    omega
  rw [parseUintLoop, if_pos hc]
  simp only [hd, hcut, hmod, hmod2, hfin, if_false, parseUintLoop]

theorem parseUintLoop_digitChar (k m : Nat) (hk : k < 10) (hm : m * 10 + k ≤ maxUint64) :
    parseUintLoop [Nat.digitChar k] m = (m * 10 + k, none) := by
  interval_cases k
  · exact parseUintLoop_digit _ _ _ (by decide) rfl hm
  · exact parseUintLoop_digit _ _ _ (by decide) rfl hm
  · exact parseUintLoop_digit _ _ _ (by decide) rfl hm
  · exact parseUintLoop_digit _ _ _ (by decide) rfl hm
  · exact parseUintLoop_digit _ _ _ (by decide) rfl hm
  · exact parseUintLoop_digit _ _ _ (by decide) rfl hm
  · exact parseUintLoop_digit _ _ _ (by decide) rfl hm
  · exact parseUintLoop_digit _ _ _ (by decide) rfl hm
  · exact parseUintLoop_digit _ _ _ (by decide) rfl hm
  · exact parseUintLoop_digit _ _ _ (by decide) rfl hm

/-- The digits printed by `Nat.toDigitsCore` parse back to the number printed. -/
theorem parseUintLoop_toDigitsCore (fuel : Nat) :
    ∀ n, n < fuel → n ≤ maxUint64 →
      ∃ pre, (∀ ds, Nat.toDigitsCore 10 fuel n ds = pre ++ ds) ∧
        parseUintLoop pre 0 = (n, none) := by
  induction fuel with
  | zero => intro n h; omega
  | succ fuel ih =>
    intro n hn hmax
    by_cases h0 : n / 10 = 0
    · refine ⟨[Nat.digitChar (n % 10)], ?_, ?_⟩
      · intro ds
        simp [Nat.toDigitsCore, h0]
      · have h := parseUintLoop_digitChar (n % 10) 0 (Nat.mod_lt _ (by decide))
          (by simp only [maxUint64] at *; omega)
        rw [h]
        congr 1
        omega
    · obtain ⟨pre, hpre, hparse⟩ := ih (n / 10) (by omega) (by omega)
      refine ⟨pre ++ [Nat.digitChar (n % 10)], ?_, ?_⟩
      · intro ds
        simp [Nat.toDigitsCore, h0, hpre]
      · rw [parseUintLoop_snoc, hparse]
        have h := parseUintLoop_digitChar (n % 10) (n / 10) (Nat.mod_lt _ (by decide))
          (by omega)
        simp only [h]
        congr 1
        omega

theorem parseUintLoop_repr (n : Nat) (hmax : n ≤ maxUint64) :
    parseUintLoop (Nat.repr n).toList 0 = (n, none) := by
  obtain ⟨pre, hpre, hparse⟩ := parseUintLoop_toDigitsCore (n + 1) n (Nat.lt_succ_self n) hmax
  have : (Nat.repr n).toList = pre := by
    simp [Nat.repr, Nat.toDigits, hpre, List.asString]
  rw [this, hparse]

theorem ParseInt_of_parseUintLoop (l : List Char) (n : Nat)
    (h : parseUintLoop l 0 = (n, none)) (hpos : 0 < n) (hlt : n < 9223372036854775808) :
    ParseInt l = ((n : Int), none) := by
  cases l with
  | nil =>
    simp [parseUintLoop] at h
    omega
  | cons c cs =>
    have hc : '0' ≤ c ∧ c ≤ '9' := by
      by_contra hc
      rw [parseUintLoop, if_neg hc] at h
      simp at h
    have hplus : (c == '+') = false := by
      rw [beq_eq_false_iff_ne]
      rintro rfl
      exact absurd hc (by decide)
    have hminus : (c == '-') = false := by
      rw [beq_eq_false_iff_ne]
      rintro rfl
      exact absurd hc (by decide)
    have hge : ¬ n ≥ 9223372036854775808 := by omega
    have hrest : (if (c == '+') = true ∨ (c == '-') = true then cs else c :: cs) = c :: cs := by
      simp [hplus, hminus]
    simp only [ParseInt, hrest, ParseUint]
    rw [h]
    simp [hminus, hge]

/-- Function `Atoi` reads back the decimal text of every positive `int64`. -/
theorem Atoi_repr (n : Nat) (hpos : 0 < n) (hlt : n < 9223372036854775808) :
    Atoi (Nat.repr n) = ((n : Int), none) :=
  ParseInt_of_parseUintLoop _ n
    (parseUintLoop_repr n (by simp only [maxUint64]; omega)) hpos hlt

/-- A text starting with a minus sign never converts to a positive number. -/
theorem ParseInt_minus (cs : List Char) :
    (ParseInt ('-' :: cs)).2 ≠ none ∨ (ParseInt ('-' :: cs)).1 ≤ 0 := by
  have hrest : (if ('-' == '+') = true ∨ ('-' == '-') = true then cs else '-' :: cs) = cs := by
    simp
  simp only [ParseInt, hrest]
  rcases ParseUint cs with ⟨un, _ | _ | _⟩
  · right
    simp only [show ('-' == '-') = true from rfl]
    split_ifs with h1 <;> simp at h1 ⊢
  · left
    simp
  · right
    simp only [show ('-' == '-') = true from rfl]
    split_ifs with h1 <;> simp at h1 ⊢

/-- The decimal text of an integer that is zero or negative never converts to a positive
number without error. -/
theorem Atoi_nonpos (z : Int) (hz : z ≤ 0) :
    (Atoi (toString z)).2 ≠ none ∨ (Atoi (toString z)).1 ≤ 0 := by
  cases z with
  | ofNat n =>
    have hn : n = 0 := by
      have : (n : Int) ≤ 0 := hz
      omega
    subst hn
    right
    decide
  | negSucc m =>
    have htxt : (toString (Int.negSucc m)).toList = '-' :: (toString (m + 1)).toList := by
      show ("-" ++ toString (m + 1)).toList = _
      simp [String.toList]
    simp only [Atoi, htxt]
    exact ParseInt_minus _

/-! ## Lemmas on `requestToAccrual` -/

/-- The rate-limit branch of `requestToAccrual`, isolated. -/
theorem requestToAccrual_tooManyRequests {A : Type} (g : Env A) (o : Order A) (resp : Response)
    (bBody : String)
    (hget : g.httpGet (g.AccrualAddress ++ "/api/orders/" ++ o.Number) = .ok resp)
    (hbody : resp.Body = .ok bBody) (hcode : resp.StatusCode = 429) :
    requestToAccrual g (some o) =
      match Atoi (resp.HeaderGet "Retry-After") with
      | (_, some e) => ⟨some (delayErrorRequest, some (.convertRetryAfter e)), some o, []⟩
      | (iRetryAfter, none) =>
        if iRetryAfter ≤ 0 then
          ⟨some (delayErrorRequest, some (.retryAfterNotValid iRetryAfter)), some o, []⟩
        else
          ⟨some (iRetryAfter, none), some o, []⟩ := by
  simp only [requestToAccrual, hget, hbody, hcode, StatusOK, StatusNoContent,
    StatusTooManyRequests]
  rfl

/-! ## Claims on `requestToAccrual` -/

/-- C1: a 200 answer whose body decodes to status `s` and accrual `a`, followed by a successful
ledger write, makes exactly one `AddAccrual` call, with the order's number, status `s` and
accrual `a`, and returns cooldown 2 with no error. -/
theorem requestToAccrual_decided {A : Type} (g : Env A) (o : Order A) (resp : Response)
    (bBody : String) (jBody : tOrderAccrualBody A)
    (hget : g.httpGet (g.AccrualAddress ++ "/api/orders/" ++ o.Number) = .ok resp)
    (hbody : resp.Body = .ok bBody) (hcode : resp.StatusCode = 200)
    (hdec : g.unmarshal bBody = .ok jBody)
    (hstore : g.AddAccrual ⟨o.Number, jBody.Status, jBody.Accrual⟩ = none) :
    ∃ o', (requestToAccrual g (some o)).calls = [o'] ∧
      o'.Number = o.Number ∧ o'.Status = jBody.Status ∧ o'.Accrual = jBody.Accrual ∧
      (requestToAccrual g (some o)).ret = some (2, none) := by
  refine ⟨⟨o.Number, jBody.Status, jBody.Accrual⟩, ?_, rfl, rfl, rfl, ?_⟩ <;>
    simp [requestToAccrual, hget, hbody, hcode, hdec, hstore, StatusOK, delayErrorRequest]

/-- C1, witness: order `A1` in `NEW`, answer `PROCESSED` with accrual 500. -/
theorem requestToAccrual_decided_witness :
    ∃ o', (requestToAccrual
        (constEnv (.ok (mkResponse 200 "" (.ok "A1 PROCESSED 500")))
          (.ok ⟨"A1", "PROCESSED", 500⟩) none)
        (some ⟨"A1", "NEW", 0⟩)).calls = [o'] ∧
      o'.Number = "A1" ∧ o'.Status = "PROCESSED" ∧ o'.Accrual = 500 ∧
      (requestToAccrual
        (constEnv (.ok (mkResponse 200 "" (.ok "A1 PROCESSED 500")))
          (.ok ⟨"A1", "PROCESSED", 500⟩) none)
        (some ⟨"A1", "NEW", 0⟩)).ret = some (2, none) :=
  requestToAccrual_decided
    (constEnv (.ok (mkResponse 200 "" (.ok "A1 PROCESSED 500")))
      (.ok ⟨"A1", "PROCESSED", 500⟩) none)
    ⟨"A1", "NEW", 0⟩ (mkResponse 200 "" (.ok "A1 PROCESSED 500")) "A1 PROCESSED 500"
    ⟨"A1", "PROCESSED", 500⟩ rfl rfl rfl rfl rfl

/-- C2: a 429 answer whose `Retry-After` header is empty, or the decimal text of an integer
that is zero or negative, returns cooldown 2 with an error, and `AddAccrual` is not called. -/
theorem requestToAccrual_badRetryAfter {A : Type} (g : Env A) (o : Order A) (resp : Response)
    (bBody : String)
    (hget : g.httpGet (g.AccrualAddress ++ "/api/orders/" ++ o.Number) = .ok resp)
    (hbody : resp.Body = .ok bBody) (hcode : resp.StatusCode = 429)
    (hhdr : resp.HeaderGet "Retry-After" = "" ∨
      ∃ z : Int, z ≤ 0 ∧ resp.HeaderGet "Retry-After" = toString z) :
    (∃ err, (requestToAccrual g (some o)).ret = some (2, some err)) ∧
      (requestToAccrual g (some o)).calls = [] := by
  rw [requestToAccrual_tooManyRequests g o resp bBody hget hbody hcode]
  have key : (Atoi (resp.HeaderGet "Retry-After")).2 ≠ none ∨
      (Atoi (resp.HeaderGet "Retry-After")).1 ≤ 0 := by
    rcases hhdr with h | ⟨z, hz, h⟩
    · rw [h]
      left
      decide
    · rw [h]
      exact Atoi_nonpos z hz
  rcases hA : Atoi (resp.HeaderGet "Retry-After") with ⟨v, _ | e⟩
  · have hv : v ≤ 0 := by
      rw [hA] at key
      simpa using key
    simp [hv, delayErrorRequest]
  · simp [delayErrorRequest]

/-- C2, witness: `Retry-After: -3`. -/
theorem requestToAccrual_badRetryAfter_witness :
    (∃ err, (requestToAccrual
        (constEnv (.ok (mkResponse 429 "-3" (.ok ""))) (.error "no body") none)
        (some ⟨"C3", "NEW", 0⟩)).ret = some (2, some err)) ∧
      (requestToAccrual
        (constEnv (.ok (mkResponse 429 "-3" (.ok ""))) (.error "no body") none)
        (some ⟨"C3", "NEW", 0⟩)).calls = [] :=
  requestToAccrual_badRetryAfter
    (constEnv (.ok (mkResponse 429 "-3" (.ok ""))) (.error "no body") none)
    ⟨"C3", "NEW", 0⟩ (mkResponse 429 "-3" (.ok "")) "" rfl rfl rfl
    (Or.inr ⟨-3, by decide, by decide⟩)

/-- C3, as stated, fails: `Retry-After: 9223372036854775808` is the decimal text of a positive
integer, yet `Atoi` reports a range error and the operation returns cooldown 2 with that error
instead of the header's number. -/
theorem requestToAccrual_retryAfter_overflow :
    (0 : Nat) < 9223372036854775808 ∧
      toString (9223372036854775808 : Nat) = "9223372036854775808" ∧
      (requestToAccrual
        (constEnv (.ok (mkResponse 429 "9223372036854775808" (.ok ""))) (.error "no body") none)
        (some ⟨"C3", "NEW", 0⟩)).ret = some (2, some (.convertRetryAfter .ErrRange)) ∧
      (requestToAccrual
        (constEnv (.ok (mkResponse 429 "9223372036854775808" (.ok ""))) (.error "no body") none)
        (some ⟨"C3", "NEW", 0⟩)).ret ≠ some (9223372036854775808, none) := by
  refine ⟨by decide, by decide, by decide, by decide⟩

/-- C3, amended: a 429 answer whose `Retry-After` header is the decimal text of an integer `N`
with `0 < N < 2^63` returns exactly `(N, no error)`, makes no `AddAccrual` call and leaves the
order as it was. -/
theorem requestToAccrual_retryAfter {A : Type} (g : Env A) (o : Order A) (resp : Response)
    (bBody : String) (N : Nat)
    (hget : g.httpGet (g.AccrualAddress ++ "/api/orders/" ++ o.Number) = .ok resp)
    (hbody : resp.Body = .ok bBody) (hcode : resp.StatusCode = 429)
    (hhdr : resp.HeaderGet "Retry-After" = toString N)
    (hpos : 0 < N) (hlt : N < 9223372036854775808) :
    (requestToAccrual g (some o)).ret = some ((N : Int), none) ∧
      (requestToAccrual g (some o)).calls = [] ∧
      (requestToAccrual g (some o)).order = some o := by
  rw [requestToAccrual_tooManyRequests g o resp bBody hget hbody hcode, hhdr]
  have hA : Atoi (toString N) = ((N : Int), none) := Atoi_repr N hpos hlt
  rw [hA]
  have hN : ¬ ((N : Int) ≤ 0) := by omega
  simp [hN]

/-- C3, witness: `Retry-After: 5` gives cooldown 5. -/
theorem requestToAccrual_retryAfter_witness :
    (requestToAccrual
        (constEnv (.ok (mkResponse 429 "5" (.ok ""))) (.error "no body") none)
        (some ⟨"C3", "NEW", 0⟩)).ret = some (((5 : Nat) : Int), none) ∧
      (requestToAccrual
        (constEnv (.ok (mkResponse 429 "5" (.ok ""))) (.error "no body") none)
        (some ⟨"C3", "NEW", 0⟩)).calls = [] ∧
      (requestToAccrual
        (constEnv (.ok (mkResponse 429 "5" (.ok ""))) (.error "no body") none)
        (some ⟨"C3", "NEW", 0⟩)).order = some ⟨"C3", "NEW", 0⟩ :=
  requestToAccrual_retryAfter
    (constEnv (.ok (mkResponse 429 "5" (.ok ""))) (.error "no body") none)
    ⟨"C3", "NEW", 0⟩ (mkResponse 429 "5" (.ok "")) "" 5 rfl rfl rfl (by decide)
    (by decide) (by decide)

/-- C4: an answer read successfully whose status code is neither 200 nor 429 returns
`(0, no error)`, makes no `AddAccrual` call and leaves the order as it was. -/
theorem requestToAccrual_other {A : Type} (g : Env A) (o : Order A) (resp : Response)
    (bBody : String)
    (hget : g.httpGet (g.AccrualAddress ++ "/api/orders/" ++ o.Number) = .ok resp)
    (hbody : resp.Body = .ok bBody)
    (h200 : resp.StatusCode ≠ 200) (h429 : resp.StatusCode ≠ 429) :
    (requestToAccrual g (some o)).ret = some (0, none) ∧
      (requestToAccrual g (some o)).calls = [] ∧
      (requestToAccrual g (some o)).order = some o := by
  simp only [requestToAccrual, hget, hbody, StatusOK, StatusNoContent, StatusTooManyRequests,
    if_neg h200, if_neg h429]
  split_ifs <;> simp

/-- C4, witness: order `B2`, answer 204 without body. -/
theorem requestToAccrual_other_witness :
    (requestToAccrual
        (constEnv (.ok (mkResponse 204 "" (.ok ""))) (.error "no body") none)
        (some ⟨"B2", "NEW", 0⟩)).ret = some (0, none) ∧
      (requestToAccrual
        (constEnv (.ok (mkResponse 204 "" (.ok ""))) (.error "no body") none)
        (some ⟨"B2", "NEW", 0⟩)).calls = [] ∧
      (requestToAccrual
        (constEnv (.ok (mkResponse 204 "" (.ok ""))) (.error "no body") none)
        (some ⟨"B2", "NEW", 0⟩)).order = some ⟨"B2", "NEW", 0⟩ :=
  requestToAccrual_other
    (constEnv (.ok (mkResponse 204 "" (.ok ""))) (.error "no body") none)
    ⟨"B2", "NEW", 0⟩ (mkResponse 204 "" (.ok "")) "" rfl rfl (by decide) (by decide)

/-- C5, as stated, fails: a 200 answer with status `PROCESSING` is persisted with the status
`PROCESSING`, which is not terminal. -/
theorem requestToAccrual_persists_nonterminal :
    (requestToAccrual
        (constEnv (.ok (mkResponse 200 "" (.ok "A1 PROCESSING")))
          (.ok ⟨"A1", "PROCESSING", 0⟩) none)
        (some ⟨"A1", "NEW", 0⟩)).calls = [⟨"A1", "PROCESSING", 0⟩] ∧
      isTerminal "PROCESSING" = false := by
  refine ⟨by decide, by decide⟩

/-- C5, amended: on a 200 answer with a decodable body the status passed to `AddAccrual` is the
answer's status string unchanged, so it is terminal exactly when the answer's status is
`PROCESSED` or `INVALID`. -/
theorem requestToAccrual_status_verbatim {A : Type} (g : Env A) (o : Order A) (resp : Response)
    (bBody : String) (jBody : tOrderAccrualBody A)
    (hget : g.httpGet (g.AccrualAddress ++ "/api/orders/" ++ o.Number) = .ok resp)
    (hbody : resp.Body = .ok bBody) (hcode : resp.StatusCode = 200)
    (hdec : g.unmarshal bBody = .ok jBody) :
    ∃ o', (requestToAccrual g (some o)).calls = [o'] ∧ o'.Status = jBody.Status ∧
      (isTerminal o'.Status = true ↔ jBody.Status = "PROCESSED" ∨ jBody.Status = "INVALID") := by
  refine ⟨⟨o.Number, jBody.Status, jBody.Accrual⟩, ?_, rfl, ?_⟩
  · simp only [requestToAccrual, hget, hbody, hcode, hdec, StatusOK, if_true]
    cases g.AddAccrual ⟨o.Number, jBody.Status, jBody.Accrual⟩ <;> rfl
  · simp [isTerminal]

/-- C5, witness: the answer `INVALID` is persisted as `INVALID`. -/
theorem requestToAccrual_status_verbatim_witness :
    ∃ o', (requestToAccrual
        (constEnv (.ok (mkResponse 200 "" (.ok "A1 INVALID"))) (.ok ⟨"A1", "INVALID", 0⟩) none)
        (some ⟨"A1", "NEW", 0⟩)).calls = [o'] ∧ o'.Status = "INVALID" ∧
      (isTerminal o'.Status = true ↔ "INVALID" = "PROCESSED" ∨ "INVALID" = "INVALID") :=
  requestToAccrual_status_verbatim
    (constEnv (.ok (mkResponse 200 "" (.ok "A1 INVALID"))) (.ok ⟨"A1", "INVALID", 0⟩) none)
    ⟨"A1", "NEW", 0⟩ (mkResponse 200 "" (.ok "A1 INVALID")) "A1 INVALID"
    ⟨"A1", "INVALID", 0⟩ rfl rfl rfl rfl

/-- C8: when the HTTP request fails, or reading the body fails, or the status code is 200 and
the body does not decode, the operation returns cooldown 2 with an error, makes no `AddAccrual`
call and leaves the order as it was. -/
theorem requestToAccrual_transport_failure {A : Type} (g : Env A) (o : Order A)
    (h : (∃ e, g.httpGet (g.AccrualAddress ++ "/api/orders/" ++ o.Number) = .error e) ∨
      (∃ resp e, g.httpGet (g.AccrualAddress ++ "/api/orders/" ++ o.Number) = .ok resp ∧
        resp.Body = .error e) ∨
      (∃ resp bBody e, g.httpGet (g.AccrualAddress ++ "/api/orders/" ++ o.Number) = .ok resp ∧
        resp.Body = .ok bBody ∧ resp.StatusCode = 200 ∧ g.unmarshal bBody = .error e)) :
    (∃ err, (requestToAccrual g (some o)).ret = some (2, some err)) ∧
      (requestToAccrual g (some o)).calls = [] ∧
      (requestToAccrual g (some o)).order = some o := by
  rcases h with ⟨e, h1⟩ | ⟨resp, e, h1, h2⟩ | ⟨resp, bBody, e, h1, h2, h3, h4⟩
  · simp [requestToAccrual, h1, delayErrorRequest]
  · simp [requestToAccrual, h1, h2, delayErrorRequest]
  · simp [requestToAccrual, h1, h2, h3, h4, StatusOK, delayErrorRequest]

/-- C8, witness: a 200 answer whose body is not JSON. -/
theorem requestToAccrual_transport_failure_witness :
    (∃ err, (requestToAccrual
        (constEnv (.ok (mkResponse 200 "" (.ok "<html>"))) (.error "invalid character") none)
        (some ⟨"A1", "NEW", 0⟩)).ret = some (2, some err)) ∧
      (requestToAccrual
        (constEnv (.ok (mkResponse 200 "" (.ok "<html>"))) (.error "invalid character") none)
        (some ⟨"A1", "NEW", 0⟩)).calls = [] ∧
      (requestToAccrual
        (constEnv (.ok (mkResponse 200 "" (.ok "<html>"))) (.error "invalid character") none)
        (some ⟨"A1", "NEW", 0⟩)).order = some ⟨"A1", "NEW", 0⟩ :=
  requestToAccrual_transport_failure
    (constEnv (.ok (mkResponse 200 "" (.ok "<html>"))) (.error "invalid character") none)
    ⟨"A1", "NEW", 0⟩
    (Or.inr (Or.inr ⟨mkResponse 200 "" (.ok "<html>"), "<html>", "invalid character",
      rfl, rfl, rfl, rfl⟩))

/-! ## Lemmas on `checkLuhn` -/

theorem isDigit_cases (c : Char) (h : c.isDigit = true) :
    c ∈ ['0', '1', '2', '3', '4', '5', '6', '7', '8', '9'] := by
  have hc : c = Char.ofNat c.toNat := (Char.ofNat_toNat c).symm
  have hb : 48 ≤ c.toNat ∧ c.toNat ≤ 57 := by
    simp only [Char.isDigit, Bool.and_eq_true, decide_eq_true_eq] at h
    exact ⟨h.1, h.2⟩
  obtain ⟨h1, h2⟩ := hb
  generalize c.toNat = n at hc h1 h2
  subst hc
  interval_cases n <;> decide

/-- A decimal digit is one byte, and `Atoi` of that byte is the digit's value. -/
theorem digit_byte (c : Char) (h : c.isDigit = true) :
    String.utf8EncodeChar c = [UInt8.ofNat c.toNat] ∧
      (Atoi (byteToString (UInt8.ofNat c.toNat))).1 = ((c.toNat - '0'.toNat : Nat) : Int) := by
  have hc := isDigit_cases c h
  simp only [List.mem_cons, List.mem_singleton, List.not_mem_nil, or_false] at hc
  rcases hc with rfl | rfl | rfl | rfl | rfl | rfl | rfl | rfl | rfl | rfl <;>
    exact ⟨by decide, by decide⟩

theorem bytes_digits (l : List Char) (h : ∀ c ∈ l, c.isDigit = true) :
    l.flatMap String.utf8EncodeChar = l.map (fun c => UInt8.ofNat c.toNat) := by
  induction l with
  | nil => rfl
  | cons c cs ih =>
    have hc := (digit_byte c (h c (List.mem_cons_self _ _))).1
    have hcs := ih (fun x hx => h x (List.mem_cons_of_mem _ hx))
    simp [List.flatMap_cons, hc, hcs]

theorem luhnWeight_cast (b : Bool) (a : Nat) (d : Int) (hd : d = (a : Int)) :
    (if b = true then (if d * 2 > 9 then d * 2 - 9 else d * 2) else d) =
      ((luhnWeight b a : Nat) : Int) := by
  subst hd
  unfold luhnWeight
  cases b
  · simp
  · simp only [if_true]
    split_ifs <;> omega

/-- The loop of `checkLuhn` over digit values `ds`, with the doubling parity `p` fixed by the
length and by `b`, totals what the right-to-left description totals. -/
theorem luhn_fold (ds : List Nat) :
    ∀ (b : Bool) (p : Nat) (digitAt : Nat → Int),
      p = (ds.length + b.toNat) % 2 →
      (∀ i, i < ds.length → digitAt i = ((ds.getD i 0 : Nat) : Int)) →
      (List.range ds.length).foldl
        (fun (sum : Int) i =>
          sum + (if i % 2 = p then
              (if digitAt i * 2 > 9 then digitAt i * 2 - 9 else digitAt i * 2)
            else digitAt i)) 0
        = ((luhnTotal b ds.reverse : Nat) : Int) := by
  induction ds using List.reverseRecOn with
  | nil => intro b p digitAt _ _; rfl
  | append_singleton t a ih =>
    intro b p digitAt hp hd
    have hlen : (t ++ [a]).length = t.length + 1 := by simp
    rw [hlen] at hp ⊢
    have hp1 : p = (t.length + (!b).toNat) % 2 := by
      cases b <;> simp at hp ⊢ <;> omega
    have hd1 : ∀ i, i < t.length → digitAt i = ((t.getD i 0 : Nat) : Int) := by
      intro i hi
      rw [hd i (by rw [hlen]; omega)]
      congr 1
      simp [List.getD_eq_getElem?_getD, List.getElem?_append_left hi]
    have hda : digitAt t.length = (a : Int) := by
      rw [hd t.length (by rw [hlen]; omega)]
      congr 1
      simp [List.getD_eq_getElem?_getD]
    have hpar : (t.length % 2 = p) ↔ b = true := by
      cases b <;> simp at hp ⊢ <;> omega
    rw [List.range_succ, List.foldl_append, ih (!b) p digitAt hp1 hd1]
    simp only [List.foldl_cons, List.foldl_nil, List.reverse_append, List.reverse_cons,
      List.reverse_nil, List.nil_append, List.singleton_append, luhnTotal]
    have hw := luhnWeight_cast b a (digitAt t.length) hda
    simp only [hpar]
    rw [hw]
    push_cast
    ring

/-- On decimal digits `checkLuhn` is the standard Luhn checksum. -/
theorem checkLuhn_eq_luhnStandard (n : String) (h : ∀ c ∈ n.toList, c.isDigit = true) :
    checkLuhn n = luhnStandard n := by
  have hb : bytes n = n.toList.map (fun c => UInt8.ofNat c.toNat) := bytes_digits _ h
  have hlen : (bytes n).length = (n.toList.map (fun c => c.toNat - '0'.toNat)).length := by
    rw [hb]
    simp
  have hfold := luhn_fold (n.toList.map (fun c => c.toNat - '0'.toNat)) false
    ((bytes n).length % 2)
    (fun i => (Atoi (byteToString ((bytes n).getD i 0))).1)
    (by rw [hlen]; simp)
    (by
      intro i hi
      simp only [List.length_map] at hi
      have hc : n.toList[i].isDigit = true := h _ (List.getElem_mem _)
      have h2 := (digit_byte _ hc).2
      simp only [hb, List.getD_eq_getElem?_getD, List.getElem?_map, List.getElem?_eq_getElem hi,
        Option.map_some', Option.getD_some]
      exact h2)
  rw [← hlen] at hfold
  have hcode : checkLuhn n =
      (((luhnTotal false (n.toList.map (fun c => c.toNat - '0'.toNat)).reverse : Nat) : Int)
        % 10 == 0) := by
    rw [← hfold]
    rfl
  rw [hcode, luhnStandard]
  generalize luhnTotal false (n.toList.map (fun c => c.toNat - '0'.toNat)).reverse = T
  have hT : ((T : Int) % 10 = 0) ↔ (T % 10 = 0) := by omega
  by_cases h0 : T % 10 = 0
  · have h1 := hT.2 h0
    simp [h0, h1]
  · have h1 : ¬ ((T : Int) % 10 = 0) := fun hh => h0 (hT.1 hh)
    simp [h0, h1]

/-! ## Claims on order number validation -/

/-- C10: on a string of decimal digits `checkLuhn` is the standard Luhn checksum; `UploadOrder`
and `WithdrawFromBalanceUser` return `ErrOrderNumberNotValid` without a store call when the
number fails the checksum, and otherwise make exactly the store call and return its result,
so they return `ErrOrderNumberNotValid` exactly when the checksum fails. -/
theorem luhn_gate {S : Type} (n : String) (hdigits : ∀ c ∈ n.toList, c.isDigit = true)
    (storeUploadOrder : Nat → String → Option GoError)
    (storeWithdraw : Nat → String → S → Option GoError) (userID : Nat) (sum : S) :
    checkLuhn n = luhnStandard n ∧
      (luhnStandard n = false →
        UploadOrder storeUploadOrder userID n = (some .ErrOrderNumberNotValid, []) ∧
        WithdrawFromBalanceUser storeWithdraw userID n sum =
          (some .ErrOrderNumberNotValid, [])) ∧
      (luhnStandard n = true →
        UploadOrder storeUploadOrder userID n =
          ((storeUploadOrder userID n).map .failedUploadOrder, [(userID, n)]) ∧
        WithdrawFromBalanceUser storeWithdraw userID n sum =
          ((storeWithdraw userID n sum).map .failedWithdraw, [(userID, n, sum)])) ∧
      ((UploadOrder storeUploadOrder userID n).1 = some .ErrOrderNumberNotValid ↔
        luhnStandard n = false) ∧
      ((WithdrawFromBalanceUser storeWithdraw userID n sum).1 = some .ErrOrderNumberNotValid ↔
        luhnStandard n = false) := by
  have heq := checkLuhn_eq_luhnStandard n hdigits
  refine ⟨heq, ?_, ?_, ?_, ?_⟩
  · intro hf
    simp [UploadOrder, WithdrawFromBalanceUser, heq, hf]
  · intro ht
    simp only [UploadOrder, WithdrawFromBalanceUser, heq, ht]
    constructor
    · cases storeUploadOrder userID n <;> simp
    · cases storeWithdraw userID n sum <;> simp
  · cases hl : luhnStandard n
    · simp [UploadOrder, heq, hl]
    · simp only [UploadOrder, heq, hl]
      cases storeUploadOrder userID n <;> simp
  · cases hl : luhnStandard n
    · simp [WithdrawFromBalanceUser, heq, hl]
    · simp only [WithdrawFromBalanceUser, heq, hl]
      cases storeWithdraw userID n sum <;> simp

/-- C10, witness: the number `79927398713`, user 7, sum 100, a store that accepts. -/
theorem luhn_gate_witness :
    checkLuhn "79927398713" = luhnStandard "79927398713" ∧
      (luhnStandard "79927398713" = false →
        UploadOrder (fun _ _ => none) 7 "79927398713" = (some .ErrOrderNumberNotValid, []) ∧
        WithdrawFromBalanceUser (fun _ _ (_ : Nat) => none) 7 "79927398713" 100 =
          (some .ErrOrderNumberNotValid, [])) ∧
      (luhnStandard "79927398713" = true →
        UploadOrder (fun _ _ => none) 7 "79927398713" =
          ((none : Option GoError).map .failedUploadOrder, [(7, "79927398713")]) ∧
        WithdrawFromBalanceUser (fun _ _ (_ : Nat) => none) 7 "79927398713" 100 =
          ((none : Option GoError).map .failedWithdraw, [(7, "79927398713", 100)])) ∧
      ((UploadOrder (fun _ _ => none) 7 "79927398713").1 = some .ErrOrderNumberNotValid ↔
        luhnStandard "79927398713" = false) ∧
      ((WithdrawFromBalanceUser (fun _ _ (_ : Nat) => none) 7 "79927398713" 100).1 =
          some .ErrOrderNumberNotValid ↔
        luhnStandard "79927398713" = false) :=
  luhn_gate "79927398713" (by decide) (fun _ _ => none) (fun _ _ (_ : Nat) => none) 7 100

/-! ## Lemmas on the engine -/

/-- With the worker at its `select`, the generator hands over the orders of its batch one by
one, in the order of the batch, and the worker builds an operation for each. -/
theorem run_deliver {A : Type} (k : Nat) :
    ∀ (L : List (Order A)) (s : Engine A), s.worker = .select → s.gen = nextSend L →
      k ≤ L.length →
      ∃ s1, run s (deliver k) = some s1 ∧
        s1.emitted = s.emitted ++ L.take k ∧ s1.built = s.built ++ (L.take k).map some ∧
        s1.gen = nextSend (L.drop k) ∧ s1.closed = s.closed ∧ s1.worker = .select := by
  induction k with
  | zero =>
    intro L s hw hg _
    exact ⟨s, rfl, by simp, by simp, by simpa using hg, rfl, hw⟩
  | succ k ih =>
    intro L s hw hg hk
    cases L with
    | nil => simp at hk
    | cons o rest =>
      have hstep : step s .handoff =
          some { s with gen := nextSend rest, worker := .executing (some o),
                        emitted := s.emitted ++ [o], built := s.built ++ [some o] } := by
        simp only [step]
        rw [hg, hw]
        rfl
      obtain ⟨s1, hrun, hem, hbu, hgen, hcl, hwk⟩ :=
        ih rest { s with gen := nextSend rest, worker := .select,
                         emitted := s.emitted ++ [o], built := s.built ++ [some o] } rfl rfl
          (by simpa using hk)
      refine ⟨s1, ?_, ?_, ?_, ?_, ?_, hwk⟩
      · simp only [deliver, run, hstep]
        simp only [step]
        exact hrun
      · rw [hem]
        simp
      · rw [hbu]
        simp
      · simpa using hgen
      · rw [hcl]

/-- Once the generator is at a send and the worker has returned, only `cancel` is enabled, and
it changes neither goroutine nor the wait group. -/
theorem step_blocked {A : Type} (o : Order A) (rest : List (Order A)) (s s1 : Engine A)
    (e : Event A) (hg : s.gen = .sending o rest) (hw : s.worker = .stopped)
    (hstep : step s e = some s1) :
    s1.gen = .sending o rest ∧ s1.worker = .stopped ∧ s1.wg = s.wg := by
  cases e with
  | cancel =>
    simp only [step, Option.some.injEq] at hstep
    subst hstep
    exact ⟨hg, hw, rfl⟩
  | tick res => simp [step, hg] at hstep
  | genDone => simp [step, hg] at hstep
  | handoff => simp [step, hg, hw] at hstep
  | recvClosed => simp [step, hw] at hstep
  | executed => simp [step, hw] at hstep
  | workerDone => simp [step, hw] at hstep

theorem run_blocked {A : Type} (o : Order A) (rest : List (Order A)) (evs : List (Event A)) :
    ∀ (s s1 : Engine A), s.gen = .sending o rest → s.worker = .stopped →
      run s evs = some s1 →
      s1.gen = .sending o rest ∧ s1.worker = .stopped ∧ s1.wg = s.wg := by
  induction evs with
  | nil =>
    intro s s1 hg hw hrun
    simp only [run, Option.some.injEq] at hrun
    subst hrun
    exact ⟨hg, hw, rfl⟩
  | cons e es ih =>
    intro s s1 hg hw hrun
    simp only [run] at hrun
    cases hstep : step s e with
    | none => simp [hstep] at hrun
    | some s2 =>
      rw [hstep] at hrun
      obtain ⟨hg2, hw2, hwg2⟩ := step_blocked o rest s s2 e hg hw hstep
      obtain ⟨hg1, hw1, hwg1⟩ := ih s2 s1 hg2 hw2 hrun
      exact ⟨hg1, hw1, by rw [hwg1, hwg2]⟩

/-- One step inside a tick, with the context not cancelled and the generator serving the
batch `L`: the context stays as it is, the channel stays as it is, and either nothing is
emitted or the first order of `L` is. -/
theorem step_withinTick {A : Type} (L : List (Order A)) (s s1 : Engine A) (e : Event A)
    (hg : s.gen = nextSend L) (hd : s.done = false) (he : withinTick e = true)
    (hstep : step s e = some s1) :
    s1.done = false ∧ s1.closed = s.closed ∧
      ((s1.gen = nextSend L ∧ s1.emitted = s.emitted) ∨
        ∃ o rest, L = o :: rest ∧ s1.gen = nextSend rest ∧ s1.emitted = s.emitted ++ [o]) := by
  cases e with
  | cancel => simp [withinTick] at he
  | tick res => simp [withinTick] at he
  | genDone => cases L <;> simp [step, nextSend, hg, hd] at hstep
  | handoff =>
    cases L with
    | nil => simp [step, nextSend, hg] at hstep
    | cons o rest =>
      cases hw : s.worker with
      | select =>
        simp only [step, nextSend, hg, hw, Option.some.injEq] at hstep
        subst hstep
        exact ⟨hd, rfl, Or.inr ⟨o, rest, rfl, rfl, rfl⟩⟩
      | executing x => simp [step, nextSend, hg, hw] at hstep
      | stopped => simp [step, nextSend, hg, hw] at hstep
  | recvClosed =>
    cases hw : s.worker with
    | select =>
      cases hc : s.closed with
      | false => simp [step, hw, hc] at hstep
      | true =>
        simp only [step, hw, hc, if_true, Option.some.injEq] at hstep
        subst hstep
        exact ⟨hd, rfl, Or.inl ⟨hg, rfl⟩⟩
    | executing x => simp [step, hw] at hstep
    | stopped => simp [step, hw] at hstep
  | executed =>
    cases hw : s.worker with
    | select => simp [step, hw] at hstep
    | executing x =>
      simp only [step, hw, Option.some.injEq] at hstep
      subst hstep
      exact ⟨hd, rfl, Or.inl ⟨hg, rfl⟩⟩
    | stopped => simp [step, hw] at hstep
  | workerDone =>
    cases hw : s.worker with
    | select => simp [step, hw, hd] at hstep
    | executing x => simp [step, hw] at hstep
    | stopped => simp [step, hw] at hstep

/-- Over every schedule inside a tick, with the context not cancelled, the orders emitted are
the first `k` of the batch `L`, in the order of `L`, and the generator is at the send of the
next one, or back at its `select` when all of `L` has been emitted. -/
theorem run_withinTick {A : Type} (evs : List (Event A)) :
    ∀ (L : List (Order A)) (s s1 : Engine A), s.gen = nextSend L → s.done = false →
      (∀ e ∈ evs, withinTick e = true) → run s evs = some s1 →
      ∃ k, k ≤ L.length ∧ s1.emitted = s.emitted ++ L.take k ∧
        s1.gen = nextSend (L.drop k) ∧ s1.closed = s.closed ∧ s1.done = false := by
  induction evs with
  | nil =>
    intro L s s1 hg hd _ hrun
    simp only [run, Option.some.injEq] at hrun
    subst hrun
    exact ⟨0, Nat.zero_le _, by simp, by simpa using hg, rfl, hd⟩
  | cons e es ih =>
    intro L s s1 hg hd hev hrun
    simp only [run] at hrun
    cases hstep : step s e with
    | none => simp [hstep] at hrun
    | some s2 =>
      rw [hstep] at hrun
      have he : withinTick e = true := hev e (List.mem_cons_self _ _)
      have hes : ∀ x ∈ es, withinTick x = true := fun x hx => hev x (List.mem_cons_of_mem _ hx)
      obtain ⟨hd2, hc2, hcase⟩ := step_withinTick L s s2 e hg hd he hstep
      rcases hcase with ⟨hg2, hem2⟩ | ⟨o, rest, hL, hg2, hem2⟩
      · obtain ⟨k, hk, hem, hgen, hcl, hdn⟩ := ih L s2 s1 hg2 hd2 hes hrun
        exact ⟨k, hk, by rw [hem, hem2], hgen, by rw [hcl, hc2], hdn⟩
      · obtain ⟨k, hk, hem, hgen, hcl, hdn⟩ := ih rest s2 s1 hg2 hd2 hes hrun
        subst hL
        refine ⟨k + 1, by simpa using hk, ?_, by simpa using hgen, by rw [hcl, hc2], hdn⟩
        rw [hem, hem2]
        simp

/-- Delivering orders involves neither a cancellation nor a further tick. -/
theorem deliver_withinTick {A : Type} (k : Nat) :
    ∀ e ∈ (deliver k : List (Event A)), withinTick e = true := by
  induction k with
  | zero =>
    intro e he
    simp [deliver] at he
  | succ n ih =>
    intro e he
    simp only [deliver, List.mem_cons] at he
    rcases he with rfl | rfl | h3
    · rfl
    · rfl
    · exact ih e h3

/-- The generator is back at its `select` only when the whole batch has been emitted. -/
theorem take_of_nextSend_select {A : Type} (L : List (Order A)) (k : Nat)
    (h : nextSend (L.drop k) = .select) : L.take k = L := by
  cases hdrop : L.drop k with
  | nil =>
    have hlen : L.length ≤ k := List.drop_eq_nil_iff.mp hdrop
    exact List.take_of_length_le hlen
  | cons o rest =>
    rw [hdrop] at h
    simp [nextSend] at h

/-- The worker returns only after the context is cancelled: a step keeps this true. -/
theorem step_worker_running {A : Type} (s s1 : Engine A) (e : Event A)
    (hinv : s.worker = .stopped → s.done = true) (hstep : step s e = some s1) :
    s1.worker = .stopped → s1.done = true := by
  cases e with
  | cancel =>
    simp only [step, Option.some.injEq] at hstep
    subst hstep
    intro _
    rfl
  | tick res =>
    cases hgen : s.gen with
    | select =>
      cases res with
      | error err =>
        simp only [step, hgen, Option.some.injEq] at hstep
        subst hstep
        exact hinv
      | ok orders =>
        simp only [step, hgen, Option.some.injEq] at hstep
        subst hstep
        exact hinv
    | sending o rest => simp [step, hgen] at hstep
    | stopped => simp [step, hgen] at hstep
  | genDone =>
    cases hgen : s.gen with
    | select =>
      cases hdone : s.done with
      | false => simp [step, hgen, hdone] at hstep
      | true =>
        simp only [step, hgen, hdone, if_true, Option.some.injEq] at hstep
        subst hstep
        intro _
        rfl
    | sending o rest => simp [step, hgen] at hstep
    | stopped => simp [step, hgen] at hstep
  | handoff =>
    cases hgen : s.gen with
    | select => simp [step, hgen] at hstep
    | sending o rest =>
      cases hw : s.worker with
      | select =>
        simp only [step, hgen, hw, Option.some.injEq] at hstep
        subst hstep
        intro h
        simp at h
      | executing x => simp [step, hgen, hw] at hstep
      | stopped => simp [step, hgen, hw] at hstep
    | stopped => simp [step, hgen] at hstep
  | recvClosed =>
    cases hw : s.worker with
    | select =>
      cases hc : s.closed with
      | false => simp [step, hw, hc] at hstep
      | true =>
        simp only [step, hw, hc, if_true, Option.some.injEq] at hstep
        subst hstep
        intro h
        simp at h
    | executing x => simp [step, hw] at hstep
    | stopped => simp [step, hw] at hstep
  | executed =>
    cases hw : s.worker with
    | select => simp [step, hw] at hstep
    | executing x =>
      simp only [step, hw, Option.some.injEq] at hstep
      subst hstep
      intro h
      simp at h
    | stopped => simp [step, hw] at hstep
  | workerDone =>
    cases hw : s.worker with
    | select =>
      cases hdone : s.done with
      | false => simp [step, hw, hdone] at hstep
      | true =>
        simp only [step, hw, hdone, if_true, Option.some.injEq] at hstep
        subst hstep
        intro _
        rfl
    | executing x => simp [step, hw] at hstep
    | stopped => simp [step, hw] at hstep

theorem run_worker_running {A : Type} (evs : List (Event A)) :
    ∀ (s s1 : Engine A), (s.worker = .stopped → s.done = true) → run s evs = some s1 →
      s1.worker = .stopped → s1.done = true := by
  induction evs with
  | nil =>
    intro s s1 hinv hrun
    simp only [run, Option.some.injEq] at hrun
    subst hrun
    exact hinv
  | cons e es ih =>
    intro s s1 hinv hrun
    simp only [run] at hrun
    cases hstep : step s e with
    | none => simp [hstep] at hrun
    | some s2 =>
      rw [hstep] at hrun
      exact ih s2 s1 (step_worker_running s s2 e hinv hstep) hrun

/-- From any state in which the worker has not returned, the worker comes back to its `select`
and the batch is delivered order by order. -/
theorem run_resume_deliver {A : Type} (L : List (Order A)) (s : Engine A)
    (hw : s.worker ≠ .stopped) (hg : s.gen = nextSend L) :
    ∃ s1, run s (resume s.worker ++ deliver L.length) = some s1 ∧
      s1.emitted = s.emitted ++ L ∧ s1.built = s.built ++ L.map some ∧
      s1.gen = .select ∧ s1.closed = s.closed := by
  cases hwk : s.worker with
  | select =>
    obtain ⟨s1, hrun, hem, hbu, hgen, hcl, _⟩ := run_deliver L.length L s hwk hg (le_refl _)
    exact ⟨s1, by simpa [resume] using hrun, by simpa using hem, by simpa using hbu,
      by simpa [nextSend] using hgen, hcl⟩
  | executing x =>
    obtain ⟨s1, hrun, hem, hbu, hgen, hcl, _⟩ :=
      run_deliver L.length L { s with worker := .select } rfl hg (le_refl _)
    refine ⟨s1, ?_, by simpa using hem, by simpa using hbu,
      by simpa [nextSend] using hgen, hcl⟩
    simp only [resume, List.singleton_append, run, step, hwk]
    exact hrun
  | stopped => exact absurd hwk hw

/-! ## Claims on the engine -/

/-- C9: at every tick taken by the generator at its `select` with the context not cancelled,
whatever the worker is doing and over every schedule with no cancellation during the tick:
if `GetOrdersNotPrecessed` fails, the tick is taken, no order is emitted, the generator stays
at its `select` and the channel is not closed; if it answers `L`, the orders emitted are at
every moment the first `k` of `L` in the order of `L`, the generator being at the send of the
next one, and once the generator is back at its `select` exactly `L` has been emitted, the
channel being as before; the worker has not returned in any state the engine reaches with the
context not cancelled, and then a schedule delivering all of `L` exists. -/
theorem generator_tick {A : Type} (s : Engine A) (hg : s.gen = .select)
    (hd : s.done = false) :
    (∀ err, step s (.tick (.error err)) = some s) ∧
      (∀ err (evs : List (Event A)) s1, (∀ e ∈ evs, withinTick e = true) →
        run s (.tick (.error err) :: evs) = some s1 →
        s1.emitted = s.emitted ∧ s1.gen = .select ∧ s1.closed = s.closed) ∧
      (∀ (L : List (Order A)) (evs : List (Event A)) s1, (∀ e ∈ evs, withinTick e = true) →
        run s (.tick (.ok L) :: evs) = some s1 →
        (∃ k, k ≤ L.length ∧ s1.emitted = s.emitted ++ L.take k ∧
          s1.gen = nextSend (L.drop k)) ∧
        s1.closed = s.closed ∧ s1.gen ≠ .stopped ∧
        (s1.gen = .select → s1.emitted = s.emitted ++ L)) ∧
      (∀ pre, run (New A) pre = some s → s.worker ≠ .stopped) ∧
      (∀ L : List (Order A), s.worker ≠ .stopped →
        (∀ e ∈ resume s.worker ++ deliver L.length, withinTick e = true) ∧
        ∃ s1, run s (.tick (.ok L) :: (resume s.worker ++ deliver L.length)) = some s1 ∧
          s1.emitted = s.emitted ++ L ∧ s1.built = s.built ++ L.map some ∧
          s1.gen = .select ∧ s1.closed = s.closed) := by
  have hfail : ∀ err, step s (.tick (.error err)) = some s := by
    intro err
    simp only [step]
    rw [hg]
  have htick : ∀ L : List (Order A),
      step s (.tick (.ok L)) = some { s with gen := nextSend L } := by
    intro L
    simp only [step]
    rw [hg]
  refine ⟨hfail, ?_, ?_, ?_, ?_⟩
  · intro err evs s1 hev hrun
    simp only [run, hfail] at hrun
    obtain ⟨k, _, hem, hgen, hcl, _⟩ := run_withinTick evs [] s s1 hg hd hev hrun
    exact ⟨by simpa using hem, by simpa [nextSend] using hgen, hcl⟩
  · intro L evs s1 hev hrun
    simp only [run, htick] at hrun
    obtain ⟨k, hk, hem, hgen, hcl, _⟩ :=
      run_withinTick evs L { s with gen := nextSend L } s1 rfl hd hev hrun
    refine ⟨⟨k, hk, hem, hgen⟩, hcl, ?_, ?_⟩
    · rw [hgen]
      cases L.drop k <;> simp [nextSend]
    · intro hsel
      rw [hgen] at hsel
      rw [hem]
      show s.emitted ++ L.take k = s.emitted ++ L
      rw [take_of_nextSend_select L k hsel]
  · intro pre hrun hstop
    have hdone := run_worker_running pre (New A) s (by intro h; simp [New] at h) hrun hstop
    rw [hd] at hdone
    exact Bool.false_ne_true hdone
  · intro L hw
    constructor
    · intro e he
      rcases List.mem_append.mp he with h1 | h2
      · cases hwk : s.worker with
        | select => simp [resume, hwk] at h1
        | executing x =>
          simp only [resume, hwk, List.mem_singleton] at h1
          subst h1
          rfl
        | stopped => simp [resume, hwk] at h1
      · exact deliver_withinTick L.length e h2
    · obtain ⟨s1, hrun, hem, hbu, hgen, hcl⟩ :=
        run_resume_deliver L { s with gen := nextSend L } hw rfl
      exact ⟨s1, by simp only [run, htick]; exact hrun, hem, hbu, hgen, hcl⟩

/-- C9, witness: the engine right after `New`. -/
theorem generator_tick_witness :
    (∀ err, step (New Nat) (.tick (.error err)) = some (New Nat)) ∧
      (∀ err (evs : List (Event Nat)) s1, (∀ e ∈ evs, withinTick e = true) →
        run (New Nat) (.tick (.error err) :: evs) = some s1 →
        s1.emitted = (New Nat).emitted ∧ s1.gen = .select ∧ s1.closed = (New Nat).closed) ∧
      (∀ (L : List (Order Nat)) (evs : List (Event Nat)) s1,
        (∀ e ∈ evs, withinTick e = true) →
        run (New Nat) (.tick (.ok L) :: evs) = some s1 →
        (∃ k, k ≤ L.length ∧ s1.emitted = (New Nat).emitted ++ L.take k ∧
          s1.gen = nextSend (L.drop k)) ∧
        s1.closed = (New Nat).closed ∧ s1.gen ≠ .stopped ∧
        (s1.gen = .select → s1.emitted = (New Nat).emitted ++ L)) ∧
      (∀ pre, run (New Nat) pre = some (New Nat) → (New Nat).worker ≠ .stopped) ∧
      (∀ L : List (Order Nat), (New Nat).worker ≠ .stopped →
        (∀ e ∈ resume (New Nat).worker ++ deliver L.length, withinTick e = true) ∧
        ∃ s1, run (New Nat) (.tick (.ok L) :: (resume (New Nat).worker ++ deliver L.length))
            = some s1 ∧
          s1.emitted = (New Nat).emitted ++ L ∧ s1.built = (New Nat).built ++ L.map some ∧
          s1.gen = .select ∧ s1.closed = (New Nat).closed) :=
  generator_tick (New Nat) rfl rfl

/-- C6 fails on the code: a tick answers the orders `o1, o2`; `o1` is handed over and, while
the worker executes it and the generator is at the send of `o2`, the context is cancelled; the
worker comes back to its `select` and takes `ctx.Done()`. The generator is then blocked in
`outpuCh <- order` with no receiver left: whatever happens afterwards it stays there, and
`Wait` never returns. -/
theorem generator_blocked_forever {A : Type} (o1 o2 : Order A) :
    ∃ s, run (New A) [.tick (.ok [o1, o2]), .handoff, .cancel, .executed, .workerDone] = some s ∧
      s.done = true ∧ s.gen = .sending o2 [] ∧ s.worker = .stopped ∧
      ∀ evs s1, run s evs = some s1 → s1.gen = .sending o2 [] ∧ waitReturns s1 = false := by
  refine ⟨{ done := true, gen := .sending o2 [], worker := .stopped, closed := false, wg := 1,
            emitted := [o1], built := [some o1] }, rfl, rfl, rfl, rfl, ?_⟩
  intro evs s1 hrun
  obtain ⟨hg, _, hwg⟩ := run_blocked o2 [] evs _ s1 rfl rfl hrun
  refine ⟨hg, ?_⟩
  simp only [waitReturns, hwg]
  rfl

/-- C7 fails on the code: after cancellation the generator returns and closes the channel; the
worker's `select` may take the receive, which yields nil on the closed channel. The worker
does not return: it calls `requestToAccrual` with the nil order and enters `cb.execute` with
the closure, which panics when run. -/
theorem worker_builds_for_nil {A : Type} (g : Env A) :
    ∃ s, run (New A) [.cancel, .genDone, .recvClosed] = some s ∧
      s.closed = true ∧ s.emitted = [] ∧ s.built = [none] ∧ s.worker = .executing none ∧
      (requestToAccrual g none).ret = none := by
  exact ⟨{ done := true, gen := .stopped, worker := .executing none, closed := true, wg := 1,
           emitted := [], built := [none] }, rfl, rfl, rfl, rfl, rfl, rfl⟩

end Gophermart
